import Mathlib

/-!
Verification of the mcp-review host core against its specification.

Shallow embedding of the TypeScript sources:
  src/host/transport.ts      (StdioTransport)
  src/host/tool-registry.ts  (ToolRegistry)
  src/host/conversation.ts   (ConversationManager, truncateDiff)
  src/host/mcp-host.ts       (MCPHost)
  src/llm/openai.ts          (createOpenAIProvider.normalizeResponse)

JavaScript runtime values that cross these functions are modelled by an
explicit JSON value type; JS Map objects are modelled as insertion-ordered
association lists; async control flow is modelled by explicit state passing
and event traces; code that can throw returns Except.
-/

/-- JSON values.  Numbers are modelled as integers; none of the verified
code paths depends on fractional numeric values. -/
inductive Json where
  | null
  | bool (b : Bool)
  | num (n : Int)
  | str (s : String)
  | arr (elems : List Json)
  | obj (fields : List (String × Json))

/-! ## Transport (src/host/transport.ts)

State of one StdioTransport: the monotone request-id counter and the
pending-request map.  The map from pending id to its resolve/reject
continuation is modelled as a list of (id, method) pairs: the method string
is what the timeout rejection message needs; resolution itself is modelled
as an emitted outcome carrying the id, which stands for invoking the stored
continuation.  The child process handle and the line buffer are not needed
by the claims about request correlation. -/

structure TransportState where
  messageId : Nat
  pending : List (Nat × String)
deriving DecidableEq, Repr

/-- The initial state of a started transport (messageId starts at 0, ids
are allocated by pre-increment, so the first id is 1). -/
def TransportState.init : TransportState := { messageId := 0, pending := [] }

/-- A parsed inbound JSON-RPC line (the result of JSON.parse in
handleMessage).  Fields mirror the TransportMessage interface. -/
structure RpcMsg where
  id : Option Nat
  rpcMethod : Option String
  result : Option Json
  rpcError : Option String

/-- A response message carrying a result for a given id. -/
def respMsg (i : Nat) (v : Json) : RpcMsg :=
  { id := some i, rpcMethod := none, result := some v, rpcError := none }

/-- An error-response message for a given id. -/
def errMsg (i : Nat) (msg : String) : RpcMsg :=
  { id := some i, rpcMethod := none, result := none, rpcError := some msg }

/-- External events driving one transport:
a request() call, one complete inbound line (none models malformed JSON),
the 30s timer of a given request id firing, and stop(). -/
inductive TEvent where
  | request (rpcMethod : String)
  | recv (msg : Option RpcMsg)
  | timeoutFire (i : Nat)
  | stop

/-- Observable outcomes: a pending promise resolving or rejecting
(the id identifies whose continuation ran), an inbound notification
surfaced as an event, and a malformed-line error event. -/
inductive TOutcome where
  | resolved (i : Nat) (result : Option Json)
  | rejected (i : Nat) (reason : String)
  | notified (rpcMethod : String) (params : Option Json)
  | errEvent

/-- Map.get on the pending map. -/
def pendGet (m : List (Nat × String)) (i : Nat) : Option String :=
  (m.find? (fun p => p.1 == i)).map (fun p => p.2)

/-- Map.delete on the pending map. -/
def pendDel (m : List (Nat × String)) (i : Nat) : List (Nat × String) :=
  m.filter (fun p => p.1 != i)

/-- One step of the transport, from transport.ts:

request(): id = ++this.messageId; pendingRequests.set(id, continuation).

recv: handleMessage — a message with an id resolves or rejects the
matching pending entry after deleting it, and is silently dropped when the
id is not pending; a message with a method but no id is surfaced as a
notification; malformed JSON surfaces an error event.

timeoutFire: the setTimeout callback — only acts if the id is still
pending, deleting it and rejecting with a timeout error.

stop(): clears the pending map without rejecting (abandoned). -/
def tstep (s : TransportState) (e : TEvent) : TransportState × List TOutcome :=
  match e with
  | .request meth =>
      let i := s.messageId + 1
      ({ messageId := i, pending := s.pending ++ [(i, meth)] }, [])
  | .recv none => (s, [.errEvent])
  | .recv (some m) =>
      match m.id with
      | some i =>
          match pendGet s.pending i with
          | some _ =>
              let s2 : TransportState := { s with pending := pendDel s.pending i }
              match m.rpcError with
              | some err => (s2, [.rejected i err])
              | none => (s2, [.resolved i m.result])
          | none => (s, [])
      | none =>
          match m.rpcMethod with
          | some meth => (s, [.notified meth m.result])
          | none => (s, [])
  | .timeoutFire i =>
      match pendGet s.pending i with
      | some meth =>
          ({ s with pending := pendDel s.pending i }, [.rejected i ("Request timeout: " ++ meth)])
      | none => (s, [])
  | .stop => ({ s with pending := [] }, [])

/-- Run a transport over a list of events, accumulating outcomes. -/
def trun (s : TransportState) (evs : List TEvent) : TransportState × List TOutcome :=
  match evs with
  | [] => (s, [])
  | e :: rest =>
      let p := tstep s e
      let q := trun p.1 rest
      (q.1, p.2 ++ q.2)

/-- Number of settlement outcomes (resolve or reject) for a given id. -/
def outCount (outs : List TOutcome) (i : Nat) : Nat :=
  (outs.filter (fun o =>
    match o with
    | .resolved j _ => j == i
    | .rejected j _ => j == i
    | _ => false)).length

/-- Number of pending entries for a given id. -/
def pendCount (s : TransportState) (i : Nat) : Nat :=
  (s.pending.filter (fun p => p.1 == i)).length

/-- Pending-entry count for an id, as a function of the raw map. -/
def pcount (m : List (Nat × String)) (i : Nat) : Nat :=
  (m.filter (fun p => p.1 == i)).length

theorem pendCount_eq_pcount (s : TransportState) (i : Nat) :
    pendCount s i = pcount s.pending i := rfl

theorem outCount_append (a b : List TOutcome) (i : Nat) :
    outCount (a ++ b) i = outCount a i + outCount b i := by
  simp [outCount, List.filter_append]

theorem pcount_append (a b : List (Nat × String)) (i : Nat) :
    pcount (a ++ b) i = pcount a i + pcount b i := by
  simp [pcount, List.filter_append]

theorem pcount_single (k : Nat) (v : String) (i : Nat) :
    pcount [(k, v)] i = if k = i then 1 else 0 := by
  by_cases h : k = i <;> simp [pcount, h]

theorem pcount_del_self (m : List (Nat × String)) (i : Nat) :
    pcount (pendDel m i) i = 0 := by
  simp only [pcount, pendDel, List.filter_filter, List.length_eq_zero]
  apply List.filter_eq_nil_iff.mpr
  intro p _
  by_cases h : p.1 = i <;> simp [h]

theorem pcount_del_ne (m : List (Nat × String)) (i j : Nat) (h : j ≠ i) :
    pcount (pendDel m i) j = pcount m j := by
  simp only [pcount, pendDel, List.filter_filter]
  congr 1
  apply List.filter_congr
  intro p _
  by_cases hp : p.1 = j
  · simp [hp, h]
  · simp [hp]

theorem pendGet_some_pcount_pos (m : List (Nat × String)) (i : Nat) (v : String)
    (h : pendGet m i = some v) : 0 < pcount m i := by
  simp only [pendGet, Option.map_eq_some'] at h
  obtain ⟨p, hp, _⟩ := h
  have hmem := List.mem_of_find?_eq_some hp
  have hpred := List.find?_some hp
  have : p ∈ m.filter (fun p => p.1 == i) := List.mem_filter.mpr ⟨hmem, hpred⟩
  calc 0 < 1 := Nat.zero_lt_one
    _ ≤ (m.filter (fun p => p.1 == i)).length := List.length_pos.mpr (List.ne_nil_of_mem this)

theorem pendGet_none_pcount (m : List (Nat × String)) (i : Nat)
    (h : pendGet m i = none) : pcount m i = 0 := by
  simp only [pendGet, Option.map_eq_none'] at h
  rw [List.find?_eq_none] at h
  simp only [pcount, List.length_eq_zero]
  exact List.filter_eq_nil_iff.mpr fun p hp => by simpa using h p hp

/-- The correlation invariant: for every id, the number of settlement
outcomes already emitted plus the number of pending entries is at most one,
and ids above the counter are completely fresh. -/
def TransportInv (s : TransportState) (outs : List TOutcome) : Prop :=
  ∀ i, outCount outs i + pendCount s i ≤ 1 ∧
    (s.messageId < i → outCount outs i + pendCount s i = 0)

theorem tstep_messageId_mono (s : TransportState) (e : TEvent) :
    s.messageId ≤ (tstep s e).1.messageId := by
  cases e with
  | request meth => exact Nat.le_succ _
  | recv m =>
      cases m with
      | none => exact Nat.le_refl _
      | some msg =>
          cases hid : msg.id with
          | some i =>
              simp only [tstep, hid]
              cases hg : pendGet s.pending i with
              | some v =>
                  cases he : msg.rpcError <;> simp [hg, he]
              | none => simp [hg]
          | none =>
              simp only [tstep, hid]
              cases hm : msg.rpcMethod <;> simp [hm]
  | timeoutFire i =>
      simp only [tstep]
      cases hg : pendGet s.pending i <;> simp [hg]
  | stop => exact Nat.le_refl _

theorem outCount_nil (i : Nat) : outCount [] i = 0 := rfl

theorem outCount_errEvent (i : Nat) : outCount [TOutcome.errEvent] i = 0 := rfl

theorem outCount_notified (m : String) (p : Option Json) (i : Nat) :
    outCount [TOutcome.notified m p] i = 0 := rfl

theorem outCount_resolved (j : Nat) (r : Option Json) (i : Nat) :
    outCount [TOutcome.resolved j r] i = if j = i then 1 else 0 := by
  by_cases h : j = i <;> simp [outCount, h]

theorem outCount_rejected (j : Nat) (r : String) (i : Nat) :
    outCount [TOutcome.rejected j r] i = if j = i then 1 else 0 := by
  by_cases h : j = i <;> simp [outCount, h]

theorem tstep_inv (s : TransportState) (outs : List TOutcome) (e : TEvent)
    (h : TransportInv s outs) :
    TransportInv (tstep s e).1 (outs ++ (tstep s e).2) := by
  have settle : ∀ (i0 : Nat) (o : TOutcome) (_ : 0 < pcount s.pending i0)
      (_ : ∀ j, outCount [o] j = if i0 = j then 1 else 0),
      TransportInv { s with pending := pendDel s.pending i0 } (outs ++ [o]) := by
    intro i0 o hpos ho j
    have h1 := (h j).1
    have h2 := (h j).2
    rw [pendCount_eq_pcount] at h1 h2
    simp only [pendCount_eq_pcount, outCount_append, ho j]
    by_cases hj : i0 = j
    · subst hj
      rw [if_pos rfl, pcount_del_self]
      constructor
      · omega
      · intro hlt
        have hz := h2 hlt
        omega
    · rw [if_neg hj, pcount_del_ne s.pending i0 j (fun he => hj he.symm)]
      constructor
      · omega
      · intro hlt
        have hz := h2 hlt
        omega
  cases e with
  | request meth =>
      intro i
      have h1 := (h i).1
      have h2 := (h i).2
      rw [pendCount_eq_pcount] at h1 h2
      simp only [tstep, outCount_append, outCount_nil, pendCount_eq_pcount, pcount_append,
        pcount_single]
      by_cases hi : s.messageId + 1 = i
      · have hz := h2 (by omega)
        rw [if_pos hi]
        constructor
        · omega
        · intro hlt
          omega
      · rw [if_neg hi]
        constructor
        · omega
        · intro hlt
          have hz := h2 (by omega)
          omega
  | recv m =>
      cases m with
      | none =>
          intro i
          have h1 := (h i).1
          have h2 := (h i).2
          simp only [tstep, outCount_append, outCount_errEvent]
          constructor
          · omega
          · intro hlt
            have hz := h2 hlt
            omega
      | some msg =>
          cases hid : msg.id with
          | some i0 =>
              cases hg : pendGet s.pending i0 with
              | some v =>
                  have hpos := pendGet_some_pcount_pos s.pending i0 v hg
                  cases he : msg.rpcError with
                  | some err =>
                      simp only [tstep, hid, hg, he]
                      exact settle i0 _ hpos (fun j => outCount_rejected i0 err j)
                  | none =>
                      simp only [tstep, hid, hg, he]
                      exact settle i0 _ hpos (fun j => outCount_resolved i0 msg.result j)
              | none =>
                  simp only [tstep, hid, hg]
                  intro i
                  have h1 := (h i).1
                  have h2 := (h i).2
                  simp only [outCount_append, outCount_nil]
                  constructor
                  · omega
                  · intro hlt
                    have hz := h2 hlt
                    omega
          | none =>
              cases hm : msg.rpcMethod with
              | some meth =>
                  simp only [tstep, hid, hm]
                  intro i
                  have h1 := (h i).1
                  have h2 := (h i).2
                  simp only [outCount_append, outCount_notified]
                  constructor
                  · omega
                  · intro hlt
                    have hz := h2 hlt
                    omega
              | none =>
                  simp only [tstep, hid, hm]
                  intro i
                  have h1 := (h i).1
                  have h2 := (h i).2
                  simp only [outCount_append, outCount_nil]
                  constructor
                  · omega
                  · intro hlt
                    have hz := h2 hlt
                    omega
  | timeoutFire i0 =>
      cases hg : pendGet s.pending i0 with
      | some v =>
          have hpos := pendGet_some_pcount_pos s.pending i0 v hg
          simp only [tstep, hg]
          exact settle i0 _ hpos (fun j => outCount_rejected i0 ("Request timeout: " ++ v) j)
      | none =>
          simp only [tstep, hg]
          intro i
          have h1 := (h i).1
          have h2 := (h i).2
          simp only [outCount_append, outCount_nil]
          constructor
          · omega
          · intro hlt
            have hz := h2 hlt
            omega
  | stop =>
      intro i
      have h1 := (h i).1
      have h2 := (h i).2
      rw [pendCount_eq_pcount] at h1 h2
      have hp : pcount ([] : List (Nat × String)) i = 0 := rfl
      simp only [tstep, outCount_append, outCount_nil, pendCount_eq_pcount, hp]
      constructor
      · omega
      · intro hlt
        have hz := h2 hlt
        omega

theorem trun_inv (evs : List TEvent) (s : TransportState) (outs : List TOutcome)
    (h : TransportInv s outs) :
    TransportInv (trun s evs).1 (outs ++ (trun s evs).2) := by
  induction evs generalizing s outs with
  | nil => simpa [trun] using h
  | cons e rest ih =>
      have step := tstep_inv s outs e h
      have := ih (tstep s e).1 (outs ++ (tstep s e).2) step
      simpa [trun] using this

theorem transportInv_init : TransportInv TransportState.init [] := by
  intro i
  constructor
  · show outCount [] i + pendCount TransportState.init i ≤ 1
    simp [outCount, pendCount, TransportState.init, pcount]
  · intro _
    show outCount [] i + pendCount TransportState.init i = 0
    simp [outCount, pendCount, TransportState.init, pcount]

theorem timeout_clears (s : TransportState) (i : Nat) :
    pendCount (tstep s (TEvent.timeoutFire i)).1 i = 0 := by
  cases hg : pendGet s.pending i with
  | some v =>
      simp only [tstep, hg, pendCount_eq_pcount]
      exact pcount_del_self s.pending i
  | none =>
      simp only [tstep, hg, pendCount_eq_pcount]
      exact pendGet_none_pcount s.pending i hg

/-- C4: in the transport, every request id is used at most once (at most
one pending entry and at most one settlement outcome per id over any event
trace), an id is no longer pending once its timeout timer has run (so with
a scheduled timeout every id is removed exactly once, by the response, the
error, or the timeout that removes it), and two concurrent requests whose
responses arrive in reverse order each resolve with the response bearing
their own id, never the other one. -/
theorem C4_request_id_correlation :
    (∀ evs i, outCount (trun TransportState.init evs).2 i ≤ 1)
    ∧ (∀ evs i, pendCount (trun TransportState.init evs).1 i ≤ 1)
    ∧ (∀ evs i,
        pendCount (trun (trun TransportState.init evs).1 [TEvent.timeoutFire i]).1 i = 0)
    ∧ (∀ mA mB a b,
        trun TransportState.init
          [TEvent.request mA, TEvent.request mB,
           TEvent.recv (some (respMsg 2 b)), TEvent.recv (some (respMsg 1 a))]
        = ({ messageId := 2, pending := [] },
           [TOutcome.resolved 2 (some b), TOutcome.resolved 1 (some a)])) := by
  refine ⟨?_, ?_, ?_, ?_⟩
  · intro evs i
    have hinv := trun_inv evs TransportState.init [] transportInv_init
    have := (hinv i).1
    simp only [List.nil_append] at this
    omega
  · intro evs i
    have hinv := trun_inv evs TransportState.init [] transportInv_init
    have := (hinv i).1
    simp only [List.nil_append] at this
    omega
  · intro evs i
    show pendCount (trun (tstep (trun TransportState.init evs).1 (TEvent.timeoutFire i)).1 []).1 i = 0
    simp only [trun]
    exact timeout_clears (trun TransportState.init evs).1 i
  · intro mA mB a b
    rfl

/-- C5: a timeout whose request is still pending removes the pending entry
and rejects with a timeout error; a response arriving when its id is no
longer pending is silently dropped; and after a timeout the same transport
still issues and successfully completes a new request. -/
theorem C5_timeout_isolation :
    (∀ s i meth, pendGet s.pending i = some meth →
        tstep s (TEvent.timeoutFire i)
        = ({ s with pending := pendDel s.pending i },
           [TOutcome.rejected i ("Request timeout: " ++ meth)]))
    ∧ (∀ s i v, pendGet s.pending i = none →
        tstep s (TEvent.recv (some (respMsg i v))) = (s, []))
    ∧ (∀ m1 m2 v w,
        trun TransportState.init
          [TEvent.request m1, TEvent.timeoutFire 1,
           TEvent.recv (some (respMsg 1 v)),
           TEvent.request m2, TEvent.recv (some (respMsg 2 w))]
        = ({ messageId := 2, pending := [] },
           [TOutcome.rejected 1 ("Request timeout: " ++ m1),
            TOutcome.resolved 2 (some w)])) := by
  refine ⟨?_, ?_, ?_⟩
  · intro s i meth hg
    simp only [tstep, hg]
  · intro s i v hg
    simp only [tstep, respMsg, hg]
  · intro m1 m2 v w
    rfl

/-- Witness for C5 at concrete inputs: a pending request with id 1 times
out and is rejected; a response for the no-longer-pending id 2 is dropped. -/
theorem C5_timeout_isolation_witness :
    tstep { messageId := 1, pending := [(1, "tools/call")] } (TEvent.timeoutFire 1)
      = ({ messageId := 1, pending := [] },
         [TOutcome.rejected 1 ("Request timeout: " ++ "tools/call")])
    ∧ tstep { messageId := 3, pending := [(3, "x")] } (TEvent.recv (some (respMsg 2 Json.null)))
      = ({ messageId := 3, pending := [(3, "x")] }, []) := by
  constructor
  · have := C5_timeout_isolation.1 { messageId := 1, pending := [(1, "tools/call")] } 1
      "tools/call" rfl
    simpa [pendDel] using this
  · exact C5_timeout_isolation.2.1 { messageId := 3, pending := [(3, "x")] } 2 Json.null rfl

/-! ## Tool registry (src/host/tool-registry.ts)

The two JS Map fields of ToolRegistry are modelled as insertion-ordered
association lists with Map.set semantics (overwrite in place, else append).
The per-server child process is modelled by an oracle
respond : server name -> request -> Except String McpToolCallResponse
standing for transport.request("tools/call", ...): ok is the parsed
response, error is a thrown transport-level exception.  callTool returns,
next to its result, the list of transport requests it issued, so that
claims can count transport hits. -/

def jsMapSet {α : Type} (m : List (String × α)) (k : String) (v : α) : List (String × α) :=
  if m.any (fun p => p.1 == k) then m.map (fun p => if p.1 == k then (k, v) else p)
  else m ++ [(k, v)]

def jsMapGet {α : Type} (m : List (String × α)) (k : String) : Option α :=
  (m.find? (fun p => p.1 == k)).map (fun p => p.2)

structure ToolCapability where
  name : String
  description : String
  inputSchema : Json

structure ToolServerRec where
  name : String
  hasTransport : Bool
  capabilities : List ToolCapability

structure ToolRegistryState where
  servers : List (String × ToolServerRec)
  toolToServer : List (String × String)

def ToolRegistryState.empty : ToolRegistryState := { servers := [], toolToServer := [] }

/-- One entry of a tools/list response (description and inputSchema may be
absent). -/
structure McpToolDescriptor where
  name : String
  description : Option String
  inputSchema : Option Json

structure McpContentBlock where
  type : String
  text : Option String

structure McpToolCallResponse where
  content : List McpContentBlock
  isError : Option Bool

structure ToolCallRequest where
  name : String
  arguments : Json

structure ToolCallResult where
  content : String
  isError : Option Bool

structure ToolServerError where
  serverName : String
  message : String

/-- registerServer, after the tools/list round-trip has produced its
descriptor list: build capabilities (missing fields default to the empty
string and the empty object), store the server record, and point each tool
name at this server, overwriting any prior owner. -/
def registerServer (st : ToolRegistryState) (name : String)
    (tools : List McpToolDescriptor) : ToolRegistryState :=
  let capabilities : List ToolCapability := tools.map (fun t =>
    { name := t.name, description := t.description.getD "",
      inputSchema := t.inputSchema.getD (Json.obj []) })
  { servers := jsMapSet st.servers name
      { name := name, hasTransport := true, capabilities := capabilities },
    toolToServer := capabilities.foldl (fun m cap => jsMapSet m cap.name name) st.toolToServer }

/-- getAvailableTools: flatten the capability lists of all server records
in map insertion order. -/
def getAvailableTools (st : ToolRegistryState) : List ToolCapability :=
  (st.servers.map (fun p => p.2.capabilities)).flatten

/- Minimal JSON.stringify (string escaping elided: no verified claim
depends on the rendering of special characters). -/
mutual
def jsonStringify : Json → String
  | .null => "null"
  | .bool true => "true"
  | .bool false => "false"
  | .num n => toString n
  | .str s => "\"" ++ s ++ "\""
  | .arr xs => "[" ++ String.intercalate "," (jsonStringifyList xs) ++ "]"
  | .obj fs => "\x7b" ++ String.intercalate "," (jsonStringifyFields fs) ++ "\x7d"
def jsonStringifyList : List Json → List String
  | [] => []
  | x :: xs => jsonStringify x :: jsonStringifyList xs
def jsonStringifyFields : List (String × Json) → List String
  | [] => []
  | (k, v) :: fs => ("\"" ++ k ++ "\":" ++ jsonStringify v) :: jsonStringifyFields fs
end

/-- callTool, from tool-registry.ts lines 113-156.  Unknown tool and
missing server produce error-flagged results; a manually registered tool
(no transport) produces a placeholder; otherwise one transport request is
issued: a thrown transport error is wrapped in a ToolServerError and
re-raised, and an ok response has its text blocks joined (empty join
becomes the "(no content)" marker) with the isError flag propagated.
The second component lists the transport requests issued. -/
def callTool (st : ToolRegistryState)
    (respond : String → ToolCallRequest → Except String McpToolCallResponse)
    (request : ToolCallRequest) :
    Except ToolServerError ToolCallResult × List (String × ToolCallRequest) :=
  match jsMapGet st.toolToServer request.name with
  | none => (.ok { content := "Unknown tool: " ++ request.name, isError := some true }, [])
  | some serverName =>
      match jsMapGet st.servers serverName with
      | none => (.ok { content := "Server not found: " ++ serverName, isError := some true }, [])
      | some server =>
          if !server.hasTransport then
            (.ok { content := "Tool " ++ request.name ++ " called with " ++
                     jsonStringify request.arguments,
                   isError := none }, [])
          else
            match respond serverName request with
            | .error msg =>
                (.error { serverName := serverName,
                          message := "Tool call \"" ++ request.name ++ "\" failed: " ++ msg },
                 [(serverName, request)])
            | .ok response =>
                let textParts := (response.content.filter (fun b =>
                    b.type == "text" &&
                      (match b.text with | some t => t != "" | none => false))).map
                  (fun b => b.text.getD "")
                let joined := String.intercalate "\n" textParts
                (.ok { content := if joined == "" then "(no content)" else joined,
                       isError := response.isError },
                 [(serverName, request)])

/-! ## C1: tool-result caching -/

def c1Registry : ToolRegistryState :=
  registerServer ToolRegistryState.empty "file-context"
    [{ name := "read_file", description := some "Read a file", inputSchema := none }]

def c1Respond : String → ToolCallRequest → Except String McpToolCallResponse :=
  fun _ _ => .ok { content := [{ type := "text", text := some "response" }], isError := none }

def c1Request : ToolCallRequest :=
  { name := "read_file", arguments := Json.obj [("path", Json.str "/foo.ts")] }

/-- C1 (code-bug evidence): ToolRegistry in src/host/tool-registry.ts has
no memo of tool results — its entire state is the servers map and the
toolToServer map, and callTool is a pure read of that state — so each of
two callTool invocations with the same cacheable tool name (read_file) and
byte-identical arguments issues exactly one transport request, two in
total, where the claim (and the repository test suite for the registry)
requires the second call to be served from cache with a single transport
hit. -/
theorem C1_no_cache_two_transport_hits :
    (callTool c1Registry c1Respond c1Request).2.length = 1 ∧
    (callTool c1Registry c1Respond c1Request).1
      = Except.ok { content := "response", isError := none } ∧
    ((callTool c1Registry c1Respond c1Request).2 ++
      (callTool c1Registry c1Respond c1Request).2).length = 2 :=
  ⟨rfl, rfl, rfl⟩

/-! ## Conversation content blocks and per-round tool dispatch
(src/host/conversation.ts lines 370-442) -/

inductive ContentBlock where
  | text (text : String)
  | toolUse (id : String) (name : String) (input : Json)

structure ToolResultBlock where
  tool_use_id : String
  content : String
  is_error : Option Bool

/-- The tool_use blocks of one assistant turn, in order (the filter with
the type guard in runReview). -/
def toolUseBlocks (content : List ContentBlock) : List (String × String × Json) :=
  content.filterMap (fun b => match b with
    | .toolUse i n inp => some (i, n, inp)
    | .text _ => none)

/-- Promise.all over the per-block callTool results: if any call threw,
the whole round rejects with that error (all calls were still started);
otherwise the tool_result blocks are collected in block order, each
carrying the id of its originating invocation. -/
def settleAll :
    List ((String × String × Json) × Except ToolServerError ToolCallResult) →
    Except ToolServerError (List ToolResultBlock)
  | [] => .ok []
  | (_, .error e) :: _ => .error e
  | (b, .ok r) :: rest =>
      match settleAll rest with
      | .error e => .error e
      | .ok rs => .ok ({ tool_use_id := b.1, content := r.content, is_error := r.isError } :: rs)

/-- One tool round of runReview: every tool_use block of the turn is
dispatched through callTool; the second component is the list of callTool
invocations made (one per block, regardless of individual outcomes). -/
def dispatchRound (st : ToolRegistryState)
    (respond : String → ToolCallRequest → Except String McpToolCallResponse)
    (content : List ContentBlock) :
    Except ToolServerError (List ToolResultBlock) × List ToolCallRequest :=
  let blocks := toolUseBlocks content
  let callLog := blocks.map (fun b => ({ name := b.2.1, arguments := b.2.2 } : ToolCallRequest))
  let outcomes := blocks.map (fun b =>
    (b, (callTool st respond { name := b.2.1, arguments := b.2.2 }).1))
  (settleAll outcomes, callLog)

theorem callTool_ok_of_respond_ok (st : ToolRegistryState)
    (respond : String → ToolCallRequest → Except String McpToolCallResponse)
    (hresp : ∀ sname req, ∃ r, respond sname req = Except.ok r)
    (req : ToolCallRequest) :
    ∃ r, (callTool st respond req).1 = Except.ok r := by
  unfold callTool
  cases h1 : jsMapGet st.toolToServer req.name
  case none => simp
  case some serverName =>
    cases h2 : jsMapGet st.servers serverName
    case none => simp [h2]
    case some server =>
      cases ht : server.hasTransport
      case false => simp [h2, ht]
      case true =>
        obtain ⟨r, hr⟩ := hresp serverName req
        simp [h2, ht, hr]

theorem settleAll_ok (st : ToolRegistryState)
    (respond : String → ToolCallRequest → Except String McpToolCallResponse)
    (bl : List (String × String × Json))
    (hok : ∀ b ∈ bl, ∃ r,
      (callTool st respond { name := b.2.1, arguments := b.2.2 }).1 = Except.ok r) :
    ∃ rs, settleAll (bl.map (fun b =>
        (b, (callTool st respond { name := b.2.1, arguments := b.2.2 }).1))) = Except.ok rs
      ∧ List.Forall₂ (fun (b : String × String × Json) (r : ToolResultBlock) =>
          r.tool_use_id = b.1 ∧
          (callTool st respond { name := b.2.1, arguments := b.2.2 }).1
            = Except.ok { content := r.content, isError := r.is_error }) bl rs := by
  induction bl with
  | nil => exact ⟨[], rfl, List.Forall₂.nil⟩
  | cons b rest ih =>
      obtain ⟨r, hr⟩ := hok b (List.mem_cons_self b rest)
      obtain ⟨rs, hrs, hall⟩ := ih (fun x hx => hok x (List.mem_cons_of_mem b hx))
      refine ⟨{ tool_use_id := b.1, content := r.content, is_error := r.isError } :: rs, ?_, ?_⟩
      · simp only [List.map_cons, settleAll, hr, hrs]
      · exact List.Forall₂.cons ⟨rfl, hr⟩ hall

/-- C3 (amended): in one model turn with K tool-invocation blocks, callTool
is invoked exactly K times (once per block, in order) and, provided no
dispatch raises a transport-level exception (here: every transport
response is delivered), the round completes with exactly K tool-result
blocks, each carrying the correlation id of its originating invocation and
each being exactly the result of its own call — so an application-level
failure (unknown tool, or an error-flagged tool response) is surfaced as
an error-flagged tool result without aborting the others.  A
transport-level dispatch exception, by contrast, propagates and aborts the
round (see the counterexample). -/
theorem C3_parallel_dispatch_amended (st : ToolRegistryState)
    (respond : String → ToolCallRequest → Except String McpToolCallResponse)
    (content : List ContentBlock)
    (hresp : ∀ sname req, ∃ r, respond sname req = Except.ok r) :
    (dispatchRound st respond content).2
      = (toolUseBlocks content).map
          (fun b => ({ name := b.2.1, arguments := b.2.2 } : ToolCallRequest))
    ∧ (dispatchRound st respond content).2.length = (toolUseBlocks content).length
    ∧ ∃ rs, (dispatchRound st respond content).1 = Except.ok rs
        ∧ rs.length = (toolUseBlocks content).length
        ∧ List.Forall₂ (fun (b : String × String × Json) (r : ToolResultBlock) =>
            r.tool_use_id = b.1 ∧
            (callTool st respond { name := b.2.1, arguments := b.2.2 }).1
              = Except.ok { content := r.content, isError := r.is_error })
          (toolUseBlocks content) rs := by
  obtain ⟨rs, hrs, hall⟩ := settleAll_ok st respond (toolUseBlocks content)
    (fun b _ => callTool_ok_of_respond_ok st respond hresp _)
  refine ⟨rfl, by simp [dispatchRound], rs, hrs, ?_, hall⟩
  exact (List.Forall₂.length_eq hall).symm

def c3Registry : ToolRegistryState :=
  registerServer ToolRegistryState.empty "svc"
    [{ name := "good_tool", description := some "", inputSchema := none },
     { name := "bad_tool", description := some "", inputSchema := none }]

def c3Respond : String → ToolCallRequest → Except String McpToolCallResponse :=
  fun _ req =>
    if req.name == "bad_tool" then .error "Connection lost"
    else .ok { content := [{ type := "text", text := some "ok" }], isError := none }

def c3Content : List ContentBlock :=
  [ContentBlock.toolUse "call_1" "good_tool" (Json.obj []),
   ContentBlock.toolUse "call_2" "bad_tool" (Json.obj [])]

/-- C3 (counterexample to the claim as stated): a turn with two
tool-invocation blocks where the second call fails at the transport level.
callTool is still invoked twice, but the round does not complete with two
tool-result blocks: the failure surfaces as a thrown ToolServerError that
aborts the round, so the first call's result is discarded — refuting that
a failing tool call never aborts the others and that the round always
completes. -/
theorem C3_transport_failure_aborts_round :
    (dispatchRound c3Registry c3Respond c3Content).2.length = 2 ∧
    (dispatchRound c3Registry c3Respond c3Content).1
      = Except.error
          { serverName := "svc",
            message := "Tool call \"bad_tool\" failed: Connection lost" } :=
  ⟨rfl, rfl⟩

def c3wContent : List ContentBlock :=
  [ContentBlock.toolUse "call_1" "read_file" (Json.obj [("path", Json.str "/foo.ts")]),
   ContentBlock.toolUse "call_2" "does_not_exist" (Json.obj [])]

/-- Witness for C3 at a concrete input: two blocks, one hitting a live
tool and one an unknown tool (an application-level failure); the round
completes with two correlated results. -/
theorem C3_parallel_dispatch_amended_witness :
    (dispatchRound c1Registry c1Respond c3wContent).2
      = (toolUseBlocks c3wContent).map
          (fun b => ({ name := b.2.1, arguments := b.2.2 } : ToolCallRequest))
    ∧ (dispatchRound c1Registry c1Respond c3wContent).2.length
        = (toolUseBlocks c3wContent).length
    ∧ ∃ rs, (dispatchRound c1Registry c1Respond c3wContent).1 = Except.ok rs
        ∧ rs.length = (toolUseBlocks c3wContent).length
        ∧ List.Forall₂ (fun (b : String × String × Json) (r : ToolResultBlock) =>
            r.tool_use_id = b.1 ∧
            (callTool c1Registry c1Respond { name := b.2.1, arguments := b.2.2 }).1
              = Except.ok { content := r.content, isError := r.is_error })
          (toolUseBlocks c3wContent) rs :=
  C3_parallel_dispatch_amended c1Registry c1Respond c3wContent (fun _ _ => ⟨_, rfl⟩)

/-! ## Conversation loop (src/host/conversation.ts lines 342-448)

The remote model is the environment: it is modelled as a function from
(provider call index, whether the request carried the tool catalog) to a
response — indexing by call number ranges over every possible response
sequence of the environment.  The loop itself is fuel-indexed: fuel bounds
the number of loop iterations a run is observed for, and running out of
fuel while the stop reason still requests tool use exhibits a loop that
has not terminated within (fuel + 1) provider calls. -/

inductive StopReason where
  | endTurn
  | toolUse
  | maxTokens
  | unknown
deriving DecidableEq, Repr

structure LLMResponseM where
  content : List ContentBlock
  stopReason : StopReason

inductive ChatMessage where
  | userText (text : String)
  | assistant (content : List ContentBlock)
  | userToolResults (results : List ToolResultBlock)

/-- MAX_TOOL_ROUNDS from conversation.ts line 68. -/
def MAX_TOOL_ROUNDS : Nat := 2

structure LoopState where
  messages : List ChatMessage
  toolRounds : Nat
  turnNumber : Nat
  requestLog : List Bool

inductive LoopResult where
  | final (resp : LLMResponseM) (ls : LoopState)
  | dispatchFailed (e : ToolServerError) (ls : LoopState)
  | outOfFuel (ls : LoopState)

def LoopResult.isFinal : LoopResult → Bool
  | .final _ _ => true
  | _ => false

/-- The while loop of runReview: while the stop reason is tool use, append
the assistant content, dispatch every tool_use block of the turn, append
one user message with all the tool results, bump the round counter, and
issue the next provider call — including the tool catalog only when the
round counter is still below MAX_TOOL_ROUNDS.  requestLog records, per
provider call, whether the tool catalog was included. -/
def convLoop (provider : Nat → Bool → LLMResponseM)
    (st : ToolRegistryState)
    (respond : String → ToolCallRequest → Except String McpToolCallResponse) :
    Nat → LLMResponseM → LoopState → LoopResult
  | 0, response, ls =>
      if response.stopReason = StopReason.toolUse then .outOfFuel ls
      else .final response ls
  | fuel + 1, response, ls =>
      if response.stopReason = StopReason.toolUse then
        let ls1 : LoopState :=
          { ls with toolRounds := ls.toolRounds + 1,
                    messages := ls.messages ++ [ChatMessage.assistant response.content] }
        match (dispatchRound st respond response.content).1 with
        | .error e => .dispatchFailed e ls1
        | .ok results =>
            let ls2 : LoopState :=
              { ls1 with messages := ls1.messages ++ [ChatMessage.userToolResults results] }
            let atLimit : Bool := decide (ls2.toolRounds ≥ MAX_TOOL_ROUNDS)
            let resp2 := provider ls2.turnNumber (!atLimit)
            let ls3 : LoopState :=
              { ls2 with turnNumber := ls2.turnNumber + 1,
                         requestLog := ls2.requestLog ++ [!atLimit] }
            convLoop provider st respond fuel resp2 ls3
      else .final response ls

/-- runReview from the first provider call (which always carries the tool
catalog) to loop exit. -/
def runReviewModel (provider : Nat → Bool → LLMResponseM)
    (st : ToolRegistryState)
    (respond : String → ToolCallRequest → Except String McpToolCallResponse)
    (initialPrompt : String) (fuel : Nat) : LoopResult :=
  convLoop provider st respond fuel (provider 0 true)
    { messages := [ChatMessage.userText initialPrompt],
      toolRounds := 0, turnNumber := 1, requestLog := [true] }

def LoopResult.log : LoopResult → List Bool
  | .final _ ls => ls.requestLog
  | .dispatchFailed _ ls => ls.requestLog
  | .outOfFuel ls => ls.requestLog

theorem convLoop_final (p : Nat → Bool → LLMResponseM) (st : ToolRegistryState)
    (r : String → ToolCallRequest → Except String McpToolCallResponse)
    (fuel : Nat) (resp : LLMResponseM) (ls : LoopState)
    (h : ¬ resp.stopReason = StopReason.toolUse) :
    convLoop p st r fuel resp ls = LoopResult.final resp ls := by
  cases fuel <;> simp [convLoop, h]

theorem convLoop_succ (p : Nat → Bool → LLMResponseM) (st : ToolRegistryState)
    (r : String → ToolCallRequest → Except String McpToolCallResponse)
    (fuel : Nat) (resp : LLMResponseM) (ls : LoopState)
    (h : resp.stopReason = StopReason.toolUse)
    (rs : List ToolResultBlock) (hd : (dispatchRound st r resp.content).1 = Except.ok rs) :
    convLoop p st r (fuel + 1) resp ls
      = convLoop p st r fuel
          (p ls.turnNumber (!decide (ls.toolRounds + 1 ≥ MAX_TOOL_ROUNDS)))
          { messages := ls.messages ++ [ChatMessage.assistant resp.content]
              ++ [ChatMessage.userToolResults rs],
            toolRounds := ls.toolRounds + 1,
            turnNumber := ls.turnNumber + 1,
            requestLog := ls.requestLog ++ [!decide (ls.toolRounds + 1 ≥ MAX_TOOL_ROUNDS)] } := by
  simp only [convLoop, if_pos h, hd]

/-- C2 (amended): provided no tool dispatch raises a transport exception
and every provider response to a request that omits the tool catalog
reports a stop reason other than tool use (a conforming provider cannot
request tool use when no tools were offered), the conversation loop
reaches a final response within MAX_TOOL_ROUNDS + 1 provider calls, and
when a (MAX_TOOL_ROUNDS + 1)-th call is made, that request omits the tool
catalog: the per-call tool-catalog log is [true], [true, true] or
[true, true, false]. -/
theorem C2_round_cap_amended (provider : Nat → Bool → LLMResponseM)
    (st : ToolRegistryState)
    (respond : String → ToolCallRequest → Except String McpToolCallResponse)
    (initialPrompt : String)
    (hp : ∀ n, ¬ (provider n false).stopReason = StopReason.toolUse)
    (hresp : ∀ sname req, ∃ r, respond sname req = Except.ok r) :
    (runReviewModel provider st respond initialPrompt MAX_TOOL_ROUNDS).isFinal = true
    ∧ ((runReviewModel provider st respond initialPrompt MAX_TOOL_ROUNDS).log = [true]
       ∨ (runReviewModel provider st respond initialPrompt MAX_TOOL_ROUNDS).log = [true, true]
       ∨ (runReviewModel provider st respond initialPrompt MAX_TOOL_ROUNDS).log
           = [true, true, false]) := by
  have hdis : ∀ c : List ContentBlock, ∃ rs, (dispatchRound st respond c).1 = Except.ok rs := by
    intro c
    obtain ⟨rs, hrs, _⟩ := settleAll_ok st respond (toolUseBlocks c)
      (fun b _ => callTool_ok_of_respond_ok st respond hresp _)
    exact ⟨rs, hrs⟩
  unfold runReviewModel
  by_cases h0 : (provider 0 true).stopReason = StopReason.toolUse
  · obtain ⟨rs1, hrs1⟩ := hdis (provider 0 true).content
    rw [show MAX_TOOL_ROUNDS = 1 + 1 from rfl,
      convLoop_succ provider st respond 1 _ _ h0 rs1 hrs1]
    simp only [MAX_TOOL_ROUNDS]
    norm_num
    by_cases h1 : (provider 1 true).stopReason = StopReason.toolUse
    · obtain ⟨rs2, hrs2⟩ := hdis (provider 1 true).content
      rw [show (1 : Nat) = 0 + 1 from rfl,
        convLoop_succ provider st respond 0 _ _ h1 rs2 hrs2]
      simp only [MAX_TOOL_ROUNDS]
      norm_num
      rw [convLoop_final provider st respond 0 _ _ (hp 2)]
      exact ⟨rfl, Or.inr (Or.inr rfl)⟩
    · rw [convLoop_final provider st respond 1 _ _ h1]
      exact ⟨rfl, Or.inr (Or.inl rfl)⟩
  · rw [convLoop_final provider st respond MAX_TOOL_ROUNDS _ _ h0]
    exact ⟨rfl, Or.inl rfl⟩

def c2AdversarialProvider : Nat → Bool → LLMResponseM :=
  fun _ _ =>
    { content := [ContentBlock.toolUse "t1" "read_file" (Json.obj [])],
      stopReason := StopReason.toolUse }

/-- C2 (counterexample to the claim as stated): for the provider whose
every response — including responses to requests that omit the tool
catalog — reports stop reason tool use, the loop in runReview has NOT
terminated after MAX_TOOL_ROUNDS + 1 provider calls, nor after 51: the
while condition only tests the stop reason, so nothing in the code bounds
the number of provider calls when the provider keeps answering tool use
after tools are withheld. -/
theorem C2_round_cap_counterexample :
    (runReviewModel c2AdversarialProvider c1Registry c1Respond "prompt"
        MAX_TOOL_ROUNDS).isFinal = false
    ∧ (runReviewModel c2AdversarialProvider c1Registry c1Respond "prompt" 50).isFinal = false :=
  ⟨rfl, rfl⟩

def c2wProvider : Nat → Bool → LLMResponseM :=
  fun _ withTools =>
    if withTools then
      { content := [ContentBlock.toolUse "t1" "read_file" (Json.obj [])],
        stopReason := StopReason.toolUse }
    else
      { content := [ContentBlock.text "done"], stopReason := StopReason.endTurn }

/-- Witness for C2 at concrete inputs: a provider that requests tool use
whenever tools are offered and finishes once they are withheld runs for
exactly MAX_TOOL_ROUNDS + 1 provider calls, the last request omitting the
tool catalog. -/
theorem C2_round_cap_amended_witness :
    (runReviewModel c2wProvider c1Registry c1Respond "prompt" MAX_TOOL_ROUNDS).isFinal = true
    ∧ ((runReviewModel c2wProvider c1Registry c1Respond "prompt" MAX_TOOL_ROUNDS).log = [true]
       ∨ (runReviewModel c2wProvider c1Registry c1Respond "prompt" MAX_TOOL_ROUNDS).log
           = [true, true]
       ∨ (runReviewModel c2wProvider c1Registry c1Respond "prompt" MAX_TOOL_ROUNDS).log
           = [true, true, false]) :=
  C2_round_cap_amended c2wProvider c1Registry c1Respond "prompt"
    (fun _ h => by simp [c2wProvider] at h)
    (fun _ _ => ⟨_, rfl⟩)

/-! ## truncateDiff (src/host/conversation.ts lines 95-142)

String lengths are code-point counts here where the source counts UTF-16
units; the two agree on every character the verified properties involve.
The join of the omitted header lines is written as an explicit recursion
joinNl with the exact Array.prototype.join("\n") semantics. -/

def CHARS_PER_TOKEN : Nat := 4

def MAX_DIFF_TOKENS : Nat := 100000

structure TruncateResult where
  diff : String
  omittedFiles : Nat

/-- String.prototype.startsWith, written structurally so concrete runs
evaluate inside the kernel. -/
def strStartsWith (s p : String) : Bool := p.data.isPrefixOf s.data

/-- String.prototype.split("\n"), written structurally: split at every
newline character; a trailing newline yields a trailing empty part, and
the empty string yields [""], exactly as in JS. -/
def splitNlGo : List Char → String → List String
  | [], current => [current]
  | c :: rest, current =>
      if c = '\n' then current :: splitNlGo rest ""
      else splitNlGo rest (current.push c)

def splitNl (s : String) : List String := splitNlGo s.data ""

/-- The for-loop splitting the diff into per-file sections at lines that
start a new file header, each kept line contributing line ++ newline to
the current section; the trailing current section is pushed when
non-empty. -/
def buildSectionsGo : List String → String → List String
  | [], current => if current.length > 0 then [current] else []
  | line :: rest, current =>
      if strStartsWith line "diff --git " && current.length > 0 then
        current :: buildSectionsGo rest (line ++ "\n")
      else
        buildSectionsGo rest (current ++ (line ++ "\n"))

def fileSections (diff : String) : List String :=
  buildSectionsGo (splitNl diff) ""

/-- The greedy loop: include whole sections while they fit, never breaking
before the first one. -/
def greedyGo (maxChars : Nat) : List String → String → Nat → String × Nat
  | [], acc, included => (acc, included)
  | sec :: rest, acc, included =>
      if acc.length + sec.length > maxChars ∧ 0 < included then (acc, included)
      else greedyGo maxChars rest (acc ++ sec) (included + 1)

/-- Array.prototype.join("\n"). -/
def joinNl : List String → String
  | [] => ""
  | [x] => x
  | x :: y :: rest => x ++ "\n" ++ joinNl (y :: rest)

/-- The header line of a section: the first of its lines starting with
"diff --git ", with the source fallback for a section without one. -/
def headerOf (sec : String) : String :=
  ((splitNl sec).find? (fun l => strStartsWith l "diff --git ")).getD "(unknown file)"

def instrText : String :=
  "Use the get_diff tool with a specific file path to review omitted files."

def truncNotice (omitted : Nat) (headers : String) : String :=
  "\n\n--- DIFF TRUNCATED ---\n" ++ toString omitted ++
    " additional file(s) omitted to fit within context limits:\n" ++ headers ++
    "\n\n" ++ instrText ++ "\n"

def truncateDiff (diff : String) (maxTokens : Nat := MAX_DIFF_TOKENS) : TruncateResult :=
  let maxChars := maxTokens * CHARS_PER_TOKEN
  if diff.length ≤ maxChars then { diff := diff, omittedFiles := 0 }
  else
    let sections := fileSections diff
    let gr := greedyGo maxChars sections "" 0
    let omitted := sections.length - gr.2
    if 0 < omitted then
      let omittedHeaders := joinNl ((sections.drop gr.2).map headerOf)
      { diff := gr.1 ++ truncNotice omitted omittedHeaders, omittedFiles := omitted }
    else
      { diff := gr.1, omittedFiles := omitted }

/-- p is a prefix of s. -/
def strPre (p s : String) : Prop := ∃ t, s = p ++ t

/-- m occurs as a contiguous substring of s. -/
def strInfix (m s : String) : Prop := ∃ l r, s = l ++ m ++ r

theorem strPre_append_right (p s u : String) (h : strPre p s) : strPre p (s ++ u) := by
  obtain ⟨t, ht⟩ := h
  exact ⟨t ++ u, by rw [ht, String.append_assoc]⟩

theorem strInfix_of_strPre (m s : String) (h : strPre m s) : strInfix m s := by
  obtain ⟨t, ht⟩ := h
  exact ⟨"", t, by simp [ht]⟩

theorem strInfix_append_right (m s u : String) (h : strInfix m s) : strInfix m (s ++ u) := by
  obtain ⟨l, r, hr⟩ := h
  exact ⟨l, r ++ u, by rw [hr]; simp [String.append_assoc]⟩

theorem strInfix_append_left (m s u : String) (h : strInfix m s) : strInfix m (u ++ s) := by
  obtain ⟨l, r, hr⟩ := h
  exact ⟨u ++ l, r, by rw [hr]; simp [String.append_assoc]⟩

theorem strInfix_joinNl_of_mem (x : String) (L : List String) (h : x ∈ L) :
    strInfix x (joinNl L) := by
  induction L with
  | nil => cases h
  | cons a as ih =>
      cases as with
      | nil =>
          rcases List.mem_singleton.mp h with rfl
          exact ⟨"", "", by simp [joinNl]⟩
      | cons b bs =>
          rcases List.mem_cons.mp h with rfl | hmem
          · exact ⟨"", "\n" ++ joinNl (b :: bs), by simp [joinNl, String.append_assoc]⟩
          · have := ih hmem
            have h2 : strInfix x ("\n" ++ joinNl (b :: bs)) := strInfix_append_left _ _ _ this
            have h3 : strInfix x (a ++ ("\n" ++ joinNl (b :: bs))) := strInfix_append_left _ _ _ h2
            simpa [joinNl, String.append_assoc] using h3

theorem mem_buildSectionsGo_ne_empty (lines : List String) :
    ∀ current sec, sec ∈ buildSectionsGo lines current → sec ≠ "" := by
  induction lines with
  | nil =>
      intro current sec h
      by_cases hc : current.length > 0
      · simp only [buildSectionsGo, if_pos hc, List.mem_singleton] at h
        subst h
        intro he
        rw [he] at hc
        simp at hc
      · simp only [buildSectionsGo, if_neg hc] at h
        cases h
  | cons line rest ih =>
      intro current sec h
      by_cases hc : strStartsWith line "diff --git " && current.length > 0
      · simp only [buildSectionsGo, if_pos hc, List.mem_cons] at h
        rcases h with rfl | h
        · intro he
          rw [he] at hc
          simp at hc
        · exact ih _ sec h
      · simp only [buildSectionsGo, if_neg hc] at h
        exact ih _ sec h

theorem buildSectionsGo_ne_nil (lines : List String) :
    ∀ current, lines ≠ [] ∨ 0 < current.length → buildSectionsGo lines current ≠ [] := by
  induction lines with
  | nil =>
      intro current h
      rcases h with h | h
      · exact absurd rfl h
      · simp [buildSectionsGo, h]
  | cons line rest ih =>
      intro current _
      by_cases hc : strStartsWith line "diff --git " && current.length > 0
      · simp [buildSectionsGo, hc]
      · simp only [buildSectionsGo, if_neg hc]
        apply ih
        right
        have h1 : (current ++ (line ++ "\n")).length
            = current.length + (line.length + ("\n" : String).length) := by
          rw [String.length_append, String.length_append]
        have h2 : ("\n" : String).length = 1 := rfl
        omega

theorem splitNlGo_ne_nil (cs : List Char) : ∀ current, splitNlGo cs current ≠ [] := by
  induction cs with
  | nil => intro current; simp [splitNlGo]
  | cons c rest ih =>
      intro current
      by_cases hc : c = '\n'
      · simp [splitNlGo, hc]
      · simp only [splitNlGo, if_neg hc]
        exact ih (current.push c)

theorem splitNl_ne_nil (s : String) : splitNl s ≠ [] := splitNlGo_ne_nil s.data ""

theorem greedyGo_pre (mc : Nat) (secs : List String) :
    ∀ acc n, ∃ t, (greedyGo mc secs acc n).1 = acc ++ t := by
  induction secs with
  | nil => exact fun acc n => ⟨"", by simp [greedyGo]⟩
  | cons sec rest ih =>
      intro acc n
      by_cases hc : acc.length + sec.length > mc ∧ 0 < n
      · exact ⟨"", by simp [greedyGo, hc]⟩
      · simp only [greedyGo, if_neg hc]
        obtain ⟨t, ht⟩ := ih (acc ++ sec) (n + 1)
        exact ⟨sec ++ t, by rw [ht, String.append_assoc]⟩

theorem greedyGo_included_le (mc : Nat) (secs : List String) :
    ∀ acc n, n ≤ (greedyGo mc secs acc n).2 := by
  induction secs with
  | nil => intro acc n; simp [greedyGo]
  | cons sec rest ih =>
      intro acc n
      by_cases hc : acc.length + sec.length > mc ∧ 0 < n
      · simp [greedyGo, hc]
      · simp only [greedyGo, if_neg hc]
        exact Nat.le_trans (Nat.le_succ n) (ih (acc ++ sec) (n + 1))

theorem strLength_pos (s : String) (h : s ≠ "") : 0 < s.length := by
  cases s with
  | mk data =>
      cases data with
      | nil => exact absurd rfl h
      | cons c cs => simp [String.length]

theorem greedyGo_first (mc : Nat) (hd : String) (rest : List String) :
    (∃ u, (greedyGo mc (hd :: rest) "" 0).1 = hd ++ u)
    ∧ 1 ≤ (greedyGo mc (hd :: rest) "" 0).2 := by
  have hc : ¬ (("" : String).length + hd.length > mc ∧ 0 < 0) := by simp
  simp only [greedyGo, if_neg hc]
  constructor
  · obtain ⟨u, hu⟩ := greedyGo_pre mc rest ("" ++ hd) 1
    refine ⟨u, ?_⟩
    rw [hu]
    simp
  · exact greedyGo_included_le mc rest ("" ++ hd) 1

theorem truncateDiff_fits (diff : String) (maxTokens : Nat)
    (h : diff.length ≤ maxTokens * CHARS_PER_TOKEN) :
    truncateDiff diff maxTokens = { diff := diff, omittedFiles := 0 } := by
  simp [truncateDiff, h]

theorem truncateDiff_not_fits (diff : String) (maxTokens : Nat)
    (h : ¬ diff.length ≤ maxTokens * CHARS_PER_TOKEN) :
    truncateDiff diff maxTokens =
      (if 0 < (fileSections diff).length
            - (greedyGo (maxTokens * CHARS_PER_TOKEN) (fileSections diff) "" 0).2 then
        { diff := (greedyGo (maxTokens * CHARS_PER_TOKEN) (fileSections diff) "" 0).1
            ++ truncNotice
              ((fileSections diff).length
                - (greedyGo (maxTokens * CHARS_PER_TOKEN) (fileSections diff) "" 0).2)
              (joinNl (((fileSections diff).drop
                  (greedyGo (maxTokens * CHARS_PER_TOKEN) (fileSections diff) "" 0).2).map
                headerOf)),
          omittedFiles := (fileSections diff).length
            - (greedyGo (maxTokens * CHARS_PER_TOKEN) (fileSections diff) "" 0).2 }
      else
        { diff := (greedyGo (maxTokens * CHARS_PER_TOKEN) (fileSections diff) "" 0).1,
          omittedFiles := (fileSections diff).length
            - (greedyGo (maxTokens * CHARS_PER_TOKEN) (fileSections diff) "" 0).2 }) := by
  simp only [truncateDiff, if_neg h]

theorem strAppend_ne_empty_left (a b : String) (h : a ≠ "") : a ++ b ≠ "" := by
  intro he
  have h1 : (a ++ b).length = a.length + b.length := String.length_append a b
  have h2 : 0 < a.length := strLength_pos a h
  rw [he] at h1
  have h3 : ("" : String).length = 0 := rfl
  omega

theorem strInfix_truncNotice_of_headers (m : String) (n : Nat) (headers : String)
    (h : strInfix m headers) : strInfix m (truncNotice n headers) := by
  unfold truncNotice
  apply strInfix_append_right
  apply strInfix_append_right
  apply strInfix_append_right
  exact strInfix_append_left _ _ _ h

theorem strInfix_instr_truncNotice (n : Nat) (headers : String) :
    strInfix instrText (truncNotice n headers) :=
  ⟨"\n\n--- DIFF TRUNCATED ---\n" ++ toString n
      ++ " additional file(s) omitted to fit within context limits:\n" ++ headers ++ "\n\n",
   "\n", rfl⟩

/-- C6: truncateDiff returns the diff unchanged with omittedFiles = 0
whenever the diff fits the character budget maxTokens * 4; for a non-empty
diff the output is never empty and, when truncation applies, the output
starts with the entire first per-file section even if it alone exceeds the
budget; and when files are omitted, omittedFiles equals the number of
omitted per-file sections and the output contains each omitted section's
header line as computed by the source (its first line starting with
"diff --git ") together with the instruction to fetch omitted files
individually via the get_diff tool. -/
theorem C6_truncateDiff_spec (diff : String) (maxTokens : Nat) :
    (diff.length ≤ maxTokens * CHARS_PER_TOKEN →
      truncateDiff diff maxTokens = { diff := diff, omittedFiles := 0 })
    ∧ (diff ≠ "" → (truncateDiff diff maxTokens).diff ≠ "")
    ∧ (¬ diff.length ≤ maxTokens * CHARS_PER_TOKEN →
      ∃ h t, fileSections diff = h :: t ∧ strPre h (truncateDiff diff maxTokens).diff)
    ∧ (¬ diff.length ≤ maxTokens * CHARS_PER_TOKEN →
      (truncateDiff diff maxTokens).omittedFiles
        = (fileSections diff).length
          - (greedyGo (maxTokens * CHARS_PER_TOKEN) (fileSections diff) "" 0).2
      ∧ (0 < (truncateDiff diff maxTokens).omittedFiles →
          (∀ sec ∈ (fileSections diff).drop
              (greedyGo (maxTokens * CHARS_PER_TOKEN) (fileSections diff) "" 0).2,
            strInfix (headerOf sec) (truncateDiff diff maxTokens).diff)
          ∧ strInfix instrText (truncateDiff diff maxTokens).diff)) := by
  by_cases hfit : diff.length ≤ maxTokens * CHARS_PER_TOKEN
  · refine ⟨fun _ => truncateDiff_fits diff maxTokens hfit, fun hne => ?_,
      fun hnf => absurd hfit hnf, fun hnf => absurd hfit hnf⟩
    rw [truncateDiff_fits diff maxTokens hfit]
    exact hne
  · have hsecne : fileSections diff ≠ [] := by
      unfold fileSections
      exact buildSectionsGo_ne_nil _ "" (Or.inl (splitNl_ne_nil diff))
    obtain ⟨hd, tl, hsec⟩ : ∃ hd tl, fileSections diff = hd :: tl := by
      cases hx : fileSections diff with
      | nil => exact absurd hx hsecne
      | cons a b => exact ⟨a, b, rfl⟩
    have hdne : hd ≠ "" := by
      apply mem_buildSectionsGo_ne_empty (splitNl diff) ""
      show hd ∈ fileSections diff
      rw [hsec]
      exact List.mem_cons_self hd tl
    have hfirst := greedyGo_first (maxTokens * CHARS_PER_TOKEN) hd tl
    rw [← hsec] at hfirst
    obtain ⟨⟨u, hu⟩, hinc⟩ := hfirst
    rw [truncateDiff_not_fits diff maxTokens hfit]
    by_cases homit : 0 < (fileSections diff).length
        - (greedyGo (maxTokens * CHARS_PER_TOKEN) (fileSections diff) "" 0).2
    · rw [if_pos homit]
      dsimp only
      refine ⟨fun hle => absurd hle hfit, fun _ => ?_, fun _ => ?_, fun _ => ⟨rfl, fun _ => ⟨?_, ?_⟩⟩⟩
      · rw [hu, String.append_assoc]
        exact strAppend_ne_empty_left hd _ hdne
      · exact ⟨hd, tl, hsec, strPre_append_right _ _ _ ⟨u, hu⟩⟩
      · intro sec hmem
        apply strInfix_append_left
        apply strInfix_truncNotice_of_headers
        exact strInfix_joinNl_of_mem _ _ (List.mem_map_of_mem headerOf hmem)
      · exact strInfix_append_left _ _ _ (strInfix_instr_truncNotice _ _)
    · rw [if_neg homit]
      dsimp only
      refine ⟨fun hle => absurd hle hfit, fun _ => ?_, fun _ => ?_, fun _ => ⟨rfl, fun hpos => absurd hpos homit⟩⟩
      · rw [hu]
        exact strAppend_ne_empty_left hd _ hdne
      · exact ⟨hd, tl, hsec, ⟨u, hu⟩⟩

def c6Diff : String :=
  "diff --git a/a.ts b/a.ts\n+line a content here\n" ++
  "diff --git a/b.ts b/b.ts\n+line b content here\n" ++
  "diff --git a/c.ts b/c.ts\n+line c content here\n"

def c6SecB : String := "diff --git a/b.ts b/b.ts\n+line b content here\n"

def c6SecC : String := "diff --git a/c.ts b/c.ts\n+line c content here\n\n"

set_option maxRecDepth 16384 in
/-- Witness for C6 at concrete inputs: a three-file diff fits a budget of
1000 tokens unchanged; at 10 tokens only the first section fits, two files
are reported omitted, and the output contains both omitted header lines
and the fetch-individually instruction. -/
theorem C6_truncateDiff_spec_witness :
    truncateDiff c6Diff 1000 = { diff := c6Diff, omittedFiles := 0 }
    ∧ (truncateDiff c6Diff 10).diff ≠ ""
    ∧ (truncateDiff c6Diff 10).omittedFiles = 2
    ∧ strInfix (headerOf c6SecB) (truncateDiff c6Diff 10).diff
    ∧ strInfix (headerOf c6SecC) (truncateDiff c6Diff 10).diff
    ∧ headerOf c6SecB = "diff --git a/b.ts b/b.ts"
    ∧ headerOf c6SecC = "diff --git a/c.ts b/c.ts"
    ∧ strInfix instrText (truncateDiff c6Diff 10).diff := by
  refine ⟨(C6_truncateDiff_spec c6Diff 1000).1 (by decide),
    (C6_truncateDiff_spec c6Diff 10).2.1 (by decide), by decide, ?_, ?_, by decide, by decide, ?_⟩
  · exact (((C6_truncateDiff_spec c6Diff 10).2.2.2 (by decide)).2 (by decide)).1
      c6SecB (by decide)
  · exact (((C6_truncateDiff_spec c6Diff 10).2.2.2 (by decide)).2 (by decide)).1
      c6SecC (by decide)
  · exact (((C6_truncateDiff_spec c6Diff 10).2.2.2 (by decide)).2 (by decide)).2

/-! ## Output parsing (src/host/conversation.ts lines 467-501)

jsonParse models JSON.parse on the JSON subset these claims exercise
(null, booleans, integer numbers, strings with the basic escapes, arrays,
objects); extractFenced models the regex match
of a fenced json block with its lazy capture: the first fenced block
opener followed by a later closing fence, one optional newline consumed
after the opener and one optional trailing newline stripped before the
closing fence.  Both are structural so concrete runs evaluate inside the
kernel. -/

def skipWs (cs : List Char) : List Char :=
  cs.dropWhile (fun c => c == ' ' || c == '\n' || c == '\t' || c == '\r')

def parseStringBody : List Char → Option (String × List Char)
  | [] => none
  | '"' :: rest => some ("", rest)
  | '\\' :: c :: rest =>
      let esc : Option Char :=
        if c = '"' then some '"'
        else if c = '\\' then some '\\'
        else if c = '/' then some '/'
        else if c = 'n' then some '\n'
        else if c = 't' then some '\t'
        else if c = 'r' then some '\r'
        else none
      match esc with
      | none => none
      | some ch => (parseStringBody rest).map (fun p => (String.mk (ch :: p.1.data), p.2))
  | c :: rest => (parseStringBody rest).map (fun p => (String.mk (c :: p.1.data), p.2))

def takeDigits : List Char → List Char × List Char
  | [] => ([], [])
  | c :: rest =>
      if c.isDigit then
        let p := takeDigits rest
        (c :: p.1, p.2)
      else ([], c :: rest)

def digitsToNat (ds : List Char) : Nat :=
  ds.foldl (fun acc c => acc * 10 + (c.toNat - 48)) 0

def parseNumber (cs : List Char) : Option (Json × List Char) :=
  match cs with
  | '-' :: rest =>
      match takeDigits rest with
      | ([], _) => none
      | (ds, r) => some (.num (-(digitsToNat ds : Int)), r)
  | _ =>
      match takeDigits cs with
      | ([], _) => none
      | (ds, r) => some (.num (digitsToNat ds), r)

mutual
def parseValue : Nat → List Char → Option (Json × List Char)
  | 0, _ => none
  | fuel + 1, cs =>
      match skipWs cs with
      | 'n' :: 'u' :: 'l' :: 'l' :: rest => some (.null, rest)
      | 't' :: 'r' :: 'u' :: 'e' :: rest => some (.bool true, rest)
      | 'f' :: 'a' :: 'l' :: 's' :: 'e' :: rest => some (.bool false, rest)
      | '"' :: rest => (parseStringBody rest).map (fun p => (.str p.1, p.2))
      | '[' :: rest =>
          (match skipWs rest with
           | ']' :: r => some (.arr [], r)
           | r => parseElems fuel r [])
      | '\x7b' :: rest =>
          (match skipWs rest with
           | '\x7d' :: r => some (.obj [], r)
           | r => parseFields fuel r [])
      | c :: rest =>
          if c = '-' || c.isDigit then parseNumber (c :: rest) else none
      | [] => none
def parseElems : Nat → List Char → List Json → Option (Json × List Char)
  | 0, _, _ => none
  | fuel + 1, cs, acc =>
      match parseValue fuel cs with
      | none => none
      | some (v, r) =>
          match skipWs r with
          | ',' :: r2 => parseElems fuel r2 (acc ++ [v])
          | ']' :: r2 => some (.arr (acc ++ [v]), r2)
          | _ => none
def parseFields : Nat → List Char → List (String × Json) → Option (Json × List Char)
  | 0, _, _ => none
  | fuel + 1, cs, acc =>
      match skipWs cs with
      | '"' :: r =>
          match parseStringBody r with
          | none => none
          | some (k, r2) =>
              match skipWs r2 with
              | ':' :: r3 =>
                  (match parseValue fuel r3 with
                   | none => none
                   | some (v, r4) =>
                       match skipWs r4 with
                       | ',' :: r5 => parseFields fuel r5 (acc ++ [(k, v)])
                       | '\x7d' :: r5 => some (.obj (acc ++ [(k, v)]), r5)
                       | _ => none)
              | _ => none
      | _ => none
end

def jsonParse (s : String) : Option Json :=
  match parseValue (2 * s.data.length + 2) s.data with
  | some (v, rest) => if skipWs rest = [] then some v else none
  | none => none

/-- Suffix after the first occurrence of pat. -/
def afterFirst (pat : List Char) : List Char → Option (List Char)
  | [] => none
  | c :: rest =>
      if pat.isPrefixOf (c :: rest) then some ((c :: rest).drop pat.length)
      else afterFirst pat rest

/-- Content before the first closing fence, when one exists. -/
def upToFence : List Char → Option (List Char)
  | [] => none
  | c :: rest =>
      if ("```".data).isPrefixOf (c :: rest) then some []
      else (upToFence rest).map (fun l => c :: l)

def stripTrailNl (cs : List Char) : List Char :=
  match cs.reverse with
  | '\n' :: r => r.reverse
  | _ => cs

def extractFencedGo : Nat → List Char → Option (List Char)
  | 0, _ => none
  | gas + 1, cs =>
      match afterFirst ("```json".data) cs with
      | none => none
      | some rest =>
          let rest2 := match rest with
            | '\n' :: r => r
            | _ => rest
          match upToFence rest2 with
          | some content => some (stripTrailNl content)
          | none => extractFencedGo gas rest

def extractFenced (text : String) : Option String :=
  (extractFencedGo (text.data.length + 1) text.data).map (fun cs => String.mk cs)

structure StatsM where
  filesChanged : Nat
  insertions : Nat
  deletions : Nat

/-- The review result as parseReviewOutput builds it at runtime: the four
payload fields hold whatever JSON values the untyped parse produced (the
TypeScript annotations do not narrow runtime values). -/
structure ReviewResultM where
  critical : Json
  suggestions : Json
  positive : Json
  confidence : Json
  stats : StatsM

/-- Property access parsed.k for a parse result: a field of an object,
undefined (none) otherwise.  Access on null throws and is handled at the
use site. -/
def jsonField (v : Json) (k : String) : Option Json :=
  match v with
  | .obj fs => (fs.find? (fun p => p.1 == k)).map (fun p => p.2)
  | _ => none

/-- parsed.k ?? d : the nullish coalescing of the field access. -/
def jsonFieldD (v : Json) (k : String) (d : Json) : Json :=
  match jsonField v k with
  | some .null => d
  | some w => w
  | none => d

/-- The low-confidence fallback result (text.substring(0, 500) modelled on
code points). -/
def fallbackResult (text : String) (stats : StatsM) : ReviewResultM :=
  { critical := Json.arr [],
    suggestions := Json.arr [Json.obj [("file", Json.str "review"),
      ("message", Json.str (text.take 500))]],
    positive := Json.arr [],
    confidence := Json.str "low",
    stats := stats }

/-- parseReviewOutput: extract the first fenced json block; an absent or
empty (falsy) capture, a parse failure, or a null parse result (whose
property access throws inside the try and is caught) all degrade to the
fallback; otherwise the four fields are pulled out with nullish defaults
and the pre-computed stats are attached.  The JSON.parse call is a
parameter so the general theorems quantify over it; jsonParse instantiates
it for concrete runs. -/
def parseReviewOutput (parse : String → Option Json) (text : String)
    (stats : StatsM) : ReviewResultM :=
  match extractFenced text with
  | some j =>
      if j = "" then fallbackResult text stats
      else
        match parse j with
        | none => fallbackResult text stats
        | some Json.null => fallbackResult text stats
        | some v =>
            { critical := jsonFieldD v "critical" (Json.arr []),
              suggestions := jsonFieldD v "suggestions" (Json.arr []),
              positive := jsonFieldD v "positive" (Json.arr []),
              confidence := jsonFieldD v "confidence" (Json.str "medium"),
              stats := stats }
  | none => fallbackResult text stats

theorem jsonFieldD_none (v : Json) (k : String) (d : Json)
    (h : jsonField v k = none) : jsonFieldD v k d = d := by
  simp [jsonFieldD, h]

theorem jsonFieldD_some (v : Json) (k : String) (d w : Json)
    (h : jsonField v k = some w) (hw : w ≠ Json.null) : jsonFieldD v k d = w := by
  unfold jsonFieldD
  rw [h]
  cases w <;> simp_all

theorem parseReviewOutput_structured (parse : String → Option Json) (text : String)
    (stats : StatsM) (j : String) (v : Json)
    (hx : extractFenced text = some j) (hj : j ≠ "") (hp : parse j = some v)
    (hv : v ≠ Json.null) :
    parseReviewOutput parse text stats
      = { critical := jsonFieldD v "critical" (Json.arr []),
          suggestions := jsonFieldD v "suggestions" (Json.arr []),
          positive := jsonFieldD v "positive" (Json.arr []),
          confidence := jsonFieldD v "confidence" (Json.str "medium"),
          stats := stats } := by
  unfold parseReviewOutput
  rw [hx]
  simp only [if_neg hj]
  rw [hp]
  cases v <;> simp_all

theorem parseReviewOutput_stats (parse : String → Option Json) (text : String)
    (stats : StatsM) : (parseReviewOutput parse text stats).stats = stats := by
  unfold parseReviewOutput
  cases hx : extractFenced text with
  | none => rfl
  | some j =>
      by_cases hj : j = ""
      · simp [hj, fallbackResult]
      · simp only [if_neg hj]
        cases hp : parse j with
        | none => rfl
        | some v => cases v <;> rfl

theorem parseReviewOutput_noBlock (parse : String → Option Json) (text : String)
    (stats : StatsM) (hx : extractFenced text = none) :
    parseReviewOutput parse text stats = fallbackResult text stats := by
  unfold parseReviewOutput
  rw [hx]

theorem parseReviewOutput_badParse (parse : String → Option Json) (text : String)
    (stats : StatsM) (j : String) (hx : extractFenced text = some j) (hj : j ≠ "")
    (hp : parse j = none) :
    parseReviewOutput parse text stats = fallbackResult text stats := by
  unfold parseReviewOutput
  rw [hx]
  simp only [if_neg hj]
  rw [hp]

/-- C7 (amended): the pre-computed stats are attached on every path; with
no fenced JSON block the result has empty critical and positive arrays,
exactly one suggestion carrying the 500-character excerpt of the raw text,
and confidence low; an unparseable block degrades to the same fallback;
and for a parseable block whose value is not null, each of the four
payload fields is the block's own field when present and non-null, with
the empty array (critical, suggestions, positive) and "medium"
(confidence) as defaults when missing.  A block parsing to null takes the
fallback path (the property access inside the try throws and is caught) —
see the counterexample.  The embedded function is total, so parsing never
throws. -/
theorem C7_output_parsing_amended (parse : String → Option Json) (text : String)
    (stats : StatsM) :
    (parseReviewOutput parse text stats).stats = stats
    ∧ (extractFenced text = none →
        (parseReviewOutput parse text stats).critical = Json.arr []
        ∧ (parseReviewOutput parse text stats).positive = Json.arr []
        ∧ (parseReviewOutput parse text stats).suggestions
            = Json.arr [Json.obj [("file", Json.str "review"),
                ("message", Json.str (text.take 500))]]
        ∧ (parseReviewOutput parse text stats).confidence = Json.str "low")
    ∧ (∀ j, extractFenced text = some j → j ≠ "" → parse j = none →
        parseReviewOutput parse text stats = fallbackResult text stats)
    ∧ (∀ j v, extractFenced text = some j → j ≠ "" → parse j = some v →
        v ≠ Json.null →
        ((jsonField v "critical" = none →
            (parseReviewOutput parse text stats).critical = Json.arr [])
         ∧ (jsonField v "suggestions" = none →
            (parseReviewOutput parse text stats).suggestions = Json.arr [])
         ∧ (jsonField v "positive" = none →
            (parseReviewOutput parse text stats).positive = Json.arr [])
         ∧ (jsonField v "confidence" = none →
            (parseReviewOutput parse text stats).confidence = Json.str "medium")
         ∧ (∀ w, jsonField v "critical" = some w → w ≠ Json.null →
            (parseReviewOutput parse text stats).critical = w)
         ∧ (∀ w, jsonField v "suggestions" = some w → w ≠ Json.null →
            (parseReviewOutput parse text stats).suggestions = w)
         ∧ (∀ w, jsonField v "positive" = some w → w ≠ Json.null →
            (parseReviewOutput parse text stats).positive = w)
         ∧ (∀ w, jsonField v "confidence" = some w → w ≠ Json.null →
            (parseReviewOutput parse text stats).confidence = w))) := by
  refine ⟨parseReviewOutput_stats parse text stats, ?_, ?_, ?_⟩
  · intro hx
    rw [parseReviewOutput_noBlock parse text stats hx]
    exact ⟨rfl, rfl, rfl, rfl⟩
  · intro j hx hj hp
    exact parseReviewOutput_badParse parse text stats j hx hj hp
  · intro j v hx hj hp hv
    rw [parseReviewOutput_structured parse text stats j v hx hj hp hv]
    refine ⟨fun h => jsonFieldD_none v "critical" _ h,
      fun h => jsonFieldD_none v "suggestions" _ h,
      fun h => jsonFieldD_none v "positive" _ h,
      fun h => jsonFieldD_none v "confidence" _ h,
      fun w h hw => jsonFieldD_some v "critical" _ w h hw,
      fun w h hw => jsonFieldD_some v "suggestions" _ w h hw,
      fun w h hw => jsonFieldD_some v "positive" _ w h hw,
      fun w h hw => jsonFieldD_some v "confidence" _ w h hw⟩

def c7NullText : String := "```json\nnull\n```"

set_option maxRecDepth 16384 in
/-- C7 (counterexample to the claim as stated): the text carries a
parseable fenced JSON block ("null" parses), yet the result is the
low-confidence fallback with one suggestion, not the structured extraction
with defaults: the property access on the parsed null throws inside the
try and is caught. -/
theorem C7_output_parsing_counterexample :
    extractFenced c7NullText = some "null"
    ∧ jsonParse "null" = some Json.null
    ∧ (parseReviewOutput jsonParse c7NullText ⟨3, 10, 5⟩).confidence = Json.str "low"
    ∧ (parseReviewOutput jsonParse c7NullText ⟨3, 10, 5⟩).suggestions
        = Json.arr [Json.obj [("file", Json.str "review"),
            ("message", Json.str (c7NullText.take 500))]] :=
  ⟨rfl, rfl, rfl, rfl⟩

def c7wText : String :=
  "Review done.\n```json\n\x7b\"critical\": [], \"confidence\": \"high\"\x7d\n```"

def c7wVal : Json := Json.obj [("critical", Json.arr []), ("confidence", Json.str "high")]

set_option maxRecDepth 16384 in
/-- Witness for C7 at a concrete input: a fenced block with an explicit
confidence and a missing suggestions array. -/
theorem C7_output_parsing_amended_witness :
    (parseReviewOutput jsonParse c7wText ⟨3, 10, 5⟩).stats = (⟨3, 10, 5⟩ : StatsM)
    ∧ (parseReviewOutput jsonParse c7wText ⟨3, 10, 5⟩).confidence = Json.str "high"
    ∧ (parseReviewOutput jsonParse c7wText ⟨3, 10, 5⟩).suggestions = Json.arr []
    ∧ (parseReviewOutput jsonParse c7wText ⟨3, 10, 5⟩).critical = Json.arr [] := by
  have h := C7_output_parsing_amended jsonParse c7wText ⟨3, 10, 5⟩
  have h4 := h.2.2.2 "\x7b\"critical\": [], \"confidence\": \"high\"\x7d" c7wVal rfl
    (by decide) rfl (by intro hh; cases hh)
  refine ⟨h.1, ?_, h4.2.1 rfl, ?_⟩
  · exact h4.2.2.2.2.2.2.2 (Json.str "high") rfl (by intro hh; cases hh)
  · exact h4.2.2.2.2.1 (Json.arr []) rfl (by intro hh; cases hh)

/-- C9 (amended): the confidence of a review result is "low" when the
final text has no parseable fenced JSON block and "medium" when the block
lacks a confidence field, but a present non-null confidence value is
passed through unvalidated — whatever JSON value the block carries. -/
theorem C9_confidence_amended (parse : String → Option Json) (text : String)
    (stats : StatsM) :
    (extractFenced text = none →
      (parseReviewOutput parse text stats).confidence = Json.str "low")
    ∧ (∀ j, extractFenced text = some j → j ≠ "" → parse j = none →
      (parseReviewOutput parse text stats).confidence = Json.str "low")
    ∧ (∀ j v, extractFenced text = some j → j ≠ "" → parse j = some v →
      v ≠ Json.null → jsonField v "confidence" = none →
      (parseReviewOutput parse text stats).confidence = Json.str "medium")
    ∧ (∀ j v w, extractFenced text = some j → j ≠ "" → parse j = some v →
      v ≠ Json.null → jsonField v "confidence" = some w → w ≠ Json.null →
      (parseReviewOutput parse text stats).confidence = w) := by
  refine ⟨?_, ?_, ?_, ?_⟩
  · intro hx
    rw [parseReviewOutput_noBlock parse text stats hx]
    rfl
  · intro j hx hj hp
    rw [parseReviewOutput_badParse parse text stats j hx hj hp]
    rfl
  · intro j v hx hj hp hv hf
    rw [parseReviewOutput_structured parse text stats j v hx hj hp hv]
    exact jsonFieldD_none v "confidence" _ hf
  · intro j v w hx hj hp hv hf hw
    rw [parseReviewOutput_structured parse text stats j v hx hj hp hv]
    exact jsonFieldD_some v "confidence" _ w hf hw

def c9Text : String := "```json\n\x7b\"confidence\": \"certainly\"\x7d\n```"

set_option maxRecDepth 8192 in
/-- C9 (counterexample to the claim as stated): a fenced JSON block whose
confidence field holds an arbitrary string is passed straight into the
result, so the result's confidence is "certainly" — none of "high",
"medium" or "low". -/
theorem C9_confidence_counterexample :
    (parseReviewOutput jsonParse c9Text ⟨1, 2, 3⟩).confidence = Json.str "certainly"
    ∧ Json.str "certainly" ≠ Json.str "high"
    ∧ Json.str "certainly" ≠ Json.str "medium"
    ∧ Json.str "certainly" ≠ Json.str "low" :=
  ⟨rfl, by simp, by simp, by simp⟩

set_option maxRecDepth 8192 in
/-- Witness for C9 at concrete inputs: the fallback path yields "low" and
a missing confidence field yields "medium". -/
theorem C9_confidence_amended_witness :
    (parseReviewOutput jsonParse "no fenced block here" ⟨1, 2, 3⟩).confidence
      = Json.str "low"
    ∧ (parseReviewOutput jsonParse "```json\n\x7b\"critical\": []\x7d\n```" ⟨1, 2, 3⟩).confidence
      = Json.str "medium" := by
  constructor
  · exact (C9_confidence_amended jsonParse "no fenced block here" ⟨1, 2, 3⟩).1 rfl
  · exact (C9_confidence_amended jsonParse "```json\n\x7b\"critical\": []\x7d\n```" ⟨1, 2, 3⟩).2.2.1
      "\x7b\"critical\": []\x7d" (Json.obj [("critical", Json.arr [])]) rfl (by decide) rfl
      (by intro hh; cases hh) rfl

/-! ## MCPHost.initialize (src/host/mcp-host.ts lines 54-91)

The loop body per configured server performs start, the initialize
handshake and tools/list discovery inside one try/catch: the environment
decides, per server, whether one of those three awaited steps rejects
(with which message) or succeeds with a tools/list payload.  A caught
failure only logs a warning; a success registers the server.  The model
returns the host state; being a total function, it never throws. -/

def TOOL_SERVERS : List String := ["git-diff", "file-context", "conventions", "related-files"]

inductive ServerOutcome where
  | spawnFailed (msg : String)
  | handshakeFailed (msg : String)
  | discoveryFailed (msg : String)
  | ok (tools : List McpToolDescriptor)

structure HostState where
  registry : ToolRegistryState
  transportsCount : Nat
  initialized : Bool
  warnings : List String

def capsOf (tools : List McpToolDescriptor) : List ToolCapability :=
  tools.map (fun t =>
    { name := t.name, description := t.description.getD "",
      inputSchema := t.inputSchema.getD (Json.obj []) })

def initServer (st : HostState) (name : String) (outcome : ServerOutcome) : HostState :=
  match outcome with
  | .spawnFailed msg =>
      { st with warnings := st.warnings ++ ["Failed to start " ++ name ++ ": " ++ msg] }
  | .handshakeFailed msg =>
      { st with warnings := st.warnings ++ ["Failed to start " ++ name ++ ": " ++ msg] }
  | .discoveryFailed msg =>
      { st with warnings := st.warnings ++ ["Failed to start " ++ name ++ ": " ++ msg] }
  | .ok tools =>
      { st with registry := registerServer st.registry name tools,
                transportsCount := st.transportsCount + 1 }

def initializeModel (outcomes : String → ServerOutcome) : HostState :=
  let st0 : HostState :=
    { registry := ToolRegistryState.empty, transportsCount := 0,
      initialized := false, warnings := [] }
  let st1 := TOOL_SERVERS.foldl (fun st name => initServer st name (outcomes name)) st0
  { st1 with initialized := true }

def warnOf (outcomes : String → ServerOutcome) (n : String) : Option String :=
  match outcomes n with
  | .spawnFailed m => some ("Failed to start " ++ n ++ ": " ++ m)
  | .handshakeFailed m => some ("Failed to start " ++ n ++ ": " ++ m)
  | .discoveryFailed m => some ("Failed to start " ++ n ++ ": " ++ m)
  | .ok _ => none

def srvOf (outcomes : String → ServerOutcome) (n : String) :
    Option (String × ToolServerRec) :=
  match outcomes n with
  | .ok tools => some (n, { name := n, hasTransport := true, capabilities := capsOf tools })
  | _ => none

theorem jsMapSet_absent {α : Type} (m : List (String × α)) (k : String) (v : α)
    (h : m.all (fun p => p.1 != k) = true) : jsMapSet m k v = m ++ [(k, v)] := by
  unfold jsMapSet
  have hany : m.any (fun p => p.1 == k) = false := by
    rw [List.any_eq_false]
    intro p hp
    have := List.all_eq_true.mp h p hp
    simpa using this
  rw [hany]
  simp

theorem initFold_spec (outcomes : String → ServerOutcome) (names : List String) :
    ∀ st : HostState,
    (∀ name ∈ names, st.registry.servers.all (fun p => p.1 != name) = true) →
    names.Nodup →
    ((names.foldl (fun st n => initServer st n (outcomes n)) st).registry.servers
        = st.registry.servers ++ names.filterMap (srvOf outcomes))
    ∧ ((names.foldl (fun st n => initServer st n (outcomes n)) st).warnings
        = st.warnings ++ names.filterMap (warnOf outcomes))
    ∧ ((names.foldl (fun st n => initServer st n (outcomes n)) st).initialized
        = st.initialized) := by
  induction names with
  | nil => intro st _ _; simp
  | cons n rest ih =>
      intro st h hnd
      have hn := h n (List.mem_cons_self n rest)
      have hrest : ∀ name ∈ rest, name ≠ n := by
        intro name hname he
        exact (List.nodup_cons.mp hnd).1 (he ▸ hname)
      cases ho : outcomes n with
      | ok tools =>
          have hstep : initServer st n (outcomes n)
              = { st with registry := registerServer st.registry n tools,
                          transportsCount := st.transportsCount + 1 } := by
            rw [ho]
            rfl
          have hreg : (registerServer st.registry n tools).servers
              = st.registry.servers
                ++ [(n, { name := n, hasTransport := true, capabilities := capsOf tools })] := by
            unfold registerServer
            exact jsMapSet_absent st.registry.servers n _ hn
          have h2 : ∀ name ∈ rest,
              ({ st with registry := registerServer st.registry n tools,
                         transportsCount := st.transportsCount + 1 }
                : HostState).registry.servers.all (fun p => p.1 != name) = true := by
            intro name hname
            show (registerServer st.registry n tools).servers.all (fun p => p.1 != name) = true
            rw [hreg, List.all_append]
            have ha : st.registry.servers.all (fun p => p.1 != name) = true :=
              h name (List.mem_cons_of_mem n hname)
            rw [ha]
            simp only [List.all_cons, List.all_nil, Bool.and_true, Bool.true_and]
            have : n ≠ name := fun he => hrest name hname he.symm
            simpa using this
          obtain ⟨r1, r2, r3⟩ := ih _ h2 (List.nodup_cons.mp hnd).2
          rw [List.foldl_cons, hstep]
          refine ⟨?_, ?_, ?_⟩
          · rw [r1]
            show (registerServer st.registry n tools).servers ++ _
                = st.registry.servers ++ List.filterMap (srvOf outcomes) (n :: rest)
            rw [hreg]
            simp [List.filterMap_cons, srvOf, ho]
          · rw [r2]
            simp [List.filterMap_cons, warnOf, ho]
          · exact r3
      | spawnFailed msg =>
          have hstep : initServer st n (outcomes n)
              = { st with warnings := st.warnings ++ ["Failed to start " ++ n ++ ": " ++ msg] } := by
            rw [ho]
            rfl
          obtain ⟨r1, r2, r3⟩ := ih { st with warnings := st.warnings ++ ["Failed to start " ++ n ++ ": " ++ msg] }
            (fun name hname => h name (List.mem_cons_of_mem n hname)) (List.nodup_cons.mp hnd).2
          rw [List.foldl_cons, hstep]
          refine ⟨?_, ?_, ?_⟩
          · rw [r1]
            simp [List.filterMap_cons, srvOf, ho]
          · rw [r2]
            simp [List.filterMap_cons, warnOf, ho, List.append_assoc]
          · exact r3
      | handshakeFailed msg =>
          have hstep : initServer st n (outcomes n)
              = { st with warnings := st.warnings ++ ["Failed to start " ++ n ++ ": " ++ msg] } := by
            rw [ho]
            rfl
          obtain ⟨r1, r2, r3⟩ := ih { st with warnings := st.warnings ++ ["Failed to start " ++ n ++ ": " ++ msg] }
            (fun name hname => h name (List.mem_cons_of_mem n hname)) (List.nodup_cons.mp hnd).2
          rw [List.foldl_cons, hstep]
          refine ⟨?_, ?_, ?_⟩
          · rw [r1]
            simp [List.filterMap_cons, srvOf, ho]
          · rw [r2]
            simp [List.filterMap_cons, warnOf, ho, List.append_assoc]
          · exact r3
      | discoveryFailed msg =>
          have hstep : initServer st n (outcomes n)
              = { st with warnings := st.warnings ++ ["Failed to start " ++ n ++ ": " ++ msg] } := by
            rw [ho]
            rfl
          obtain ⟨r1, r2, r3⟩ := ih { st with warnings := st.warnings ++ ["Failed to start " ++ n ++ ": " ++ msg] }
            (fun name hname => h name (List.mem_cons_of_mem n hname)) (List.nodup_cons.mp hnd).2
          rw [List.foldl_cons, hstep]
          refine ⟨?_, ?_, ?_⟩
          · rw [r1]
            simp [List.filterMap_cons, srvOf, ho]
          · rw [r2]
            simp [List.filterMap_cons, warnOf, ho, List.append_assoc]
          · exact r3

/-- C8: initialization is total over every assignment of per-server
outcomes (spawn failure, handshake failure, discovery failure, or success
with a tools/list payload): it always finishes with the initialized flag
set — a failing server never makes initialize throw — each failure
contributes exactly one non-fatal warning in configuration order, and the
registry's available-tools list afterwards is exactly the concatenation of
the discovered capabilities of the servers that succeeded. -/
theorem C8_graceful_initialization (outcomes : String → ServerOutcome) :
    (initializeModel outcomes).initialized = true
    ∧ getAvailableTools (initializeModel outcomes).registry
        = (TOOL_SERVERS.filterMap (fun n =>
            match outcomes n with
            | ServerOutcome.ok tools => some (capsOf tools)
            | _ => none)).flatten
    ∧ (initializeModel outcomes).warnings = TOOL_SERVERS.filterMap (warnOf outcomes) := by
  obtain ⟨r1, r2, r3⟩ := initFold_spec outcomes TOOL_SERVERS
    { registry := ToolRegistryState.empty, transportsCount := 0,
      initialized := false, warnings := [] }
    (fun _ _ => rfl) (by decide)
  refine ⟨rfl, ?_, ?_⟩
  · show ((initializeModel outcomes).registry.servers.map
        (fun p => p.2.capabilities)).flatten = _
    have hserv : (initializeModel outcomes).registry.servers
        = TOOL_SERVERS.filterMap (srvOf outcomes) := by
      unfold initializeModel
      simpa using r1
    rw [hserv, List.map_filterMap]
    exact congrArg (fun f => (List.filterMap f TOOL_SERVERS).flatten)
      (funext fun n => by cases ho : outcomes n <;> simp [srvOf, ho])
  · unfold initializeModel
    simpa using r2

/-! ## OpenAI-compatible adapter normalizeResponse (src/llm/openai.ts
lines 205-259) -/

structure OpenAIToolCall where
  id : String
  funcName : String
  funcArguments : String

structure OpenAIChoiceMsg where
  content : Option String
  tool_calls : Option (List OpenAIToolCall)

structure OpenAIChoice where
  finish_reason : String
  message : OpenAIChoiceMsg

structure OpenAIChatResponse where
  choices : List OpenAIChoice
  usage : Option (Nat × Nat)

structure LLMResponseN where
  content : List ContentBlock
  stopReason : StopReason
  inputTokens : Nat
  outputTokens : Nat

/-- normalizeResponse: no choices throws; a truthy (non-empty) text
content becomes one text block; each vendor tool call becomes a tool_use
block whose input is the JSON.parse of its arguments string, with the
parse failure caught and replaced by the empty object; the finish reason
is mapped onto the internal stop reasons with unknown as the default; and
absent usage counts default to zero. -/
def normalizeResponse (parse : String → Option Json)
    (resp : OpenAIChatResponse) : Except String LLMResponseN :=
  match resp.choices with
  | [] => .error "OpenAI API returned no choices"
  | choice :: _ =>
      let textBlocks : List ContentBlock :=
        match choice.message.content with
        | some c => if c = "" then [] else [ContentBlock.text c]
        | none => []
      let toolBlocks : List ContentBlock :=
        match choice.message.tool_calls with
        | none => []
        | some tcs => tcs.map (fun tc =>
            ContentBlock.toolUse tc.id tc.funcName
              ((parse tc.funcArguments).getD (Json.obj [])))
      let stopReason : StopReason :=
        if choice.finish_reason = "tool_calls" then .toolUse
        else if choice.finish_reason = "stop" then .endTurn
        else if choice.finish_reason = "length" then .maxTokens
        else .unknown
      .ok { content := textBlocks ++ toolBlocks,
            stopReason := stopReason,
            inputTokens := (resp.usage.map (fun u => u.1)).getD 0,
            outputTokens := (resp.usage.map (fun u => u.2)).getD 0 }

/-- C10: normalization is total on tool-call arguments — whenever the
response has a first choice, normalizeResponse returns ok (it does not
throw), and every vendor tool call whose arguments string is not valid
JSON yields a tool-use content block whose input is the empty object. -/
theorem C10_sanitized_tool_arguments (parse : String → Option Json)
    (resp : OpenAIChatResponse) (choice : OpenAIChoice) (rest : List OpenAIChoice)
    (hc : resp.choices = choice :: rest) :
    ∃ r, normalizeResponse parse resp = Except.ok r
      ∧ (∀ tcs, choice.message.tool_calls = some tcs →
          ∀ tc ∈ tcs, parse tc.funcArguments = none →
            ContentBlock.toolUse tc.id tc.funcName (Json.obj []) ∈ r.content) := by
  refine ⟨_, by unfold normalizeResponse; rw [hc], ?_⟩
  intro tcs htcs tc hmem hparse
  apply List.mem_append_right
  rw [htcs]
  apply List.mem_map.mpr
  refine ⟨tc, hmem, ?_⟩
  rw [hparse]
  rfl

def c10Resp : OpenAIChatResponse :=
  { choices := [{ finish_reason := "tool_calls",
                  message := { content := none,
                               tool_calls := some [{ id := "call_7",
                                                     funcName := "read_file",
                                                     funcArguments := "not valid json" }] } }],
    usage := none }

/-- Witness for C10 at a concrete input: a tool call whose arguments
string fails JSON.parse is normalized to a tool-use block with the empty
object as input, and normalizeResponse returns ok. -/
theorem C10_sanitized_tool_arguments_witness :
    ∃ r, normalizeResponse jsonParse c10Resp = Except.ok r
      ∧ ContentBlock.toolUse "call_7" "read_file" (Json.obj []) ∈ r.content := by
  obtain ⟨r, hr, hmem⟩ := C10_sanitized_tool_arguments jsonParse c10Resp
    { finish_reason := "tool_calls",
      message := { content := none,
                   tool_calls := some [{ id := "call_7", funcName := "read_file",
                                         funcArguments := "not valid json" }] } }
    [] rfl
  exact ⟨r, hr, hmem _ rfl _ (List.mem_singleton.mpr rfl) rfl⟩
